import Mathlib

/-!
Verification of the Observer-pattern core of `src/Observer/src/main.cpp`.

The C++ code keeps an intrusive singly-linked chain of observers:
each `Observer` object carries a `next_` pointer (`nullptr` at
construction), and the `Subject` holds the chain head `head_` and an
integer `state_`.  We embed the reachable pointer state shallowly:
observers are identified by natural numbers, the collection of all
`next_` fields is a heap `Nat → Option Nat` (with `none` playing the
role of `nullptr`), and the subject's fields sit beside it.  The two
`while` loops of the source (`removeObserver`'s scan and
`notifyObservers`'s walk) are embedded with an explicit fuel argument,
since nothing in the raw pointer structure rules out cycles; running
out of fuel is reported as `none` and models divergence of the loop.
-/

/-- The `next_` fields of every observer object, indexed by observer
identity; `none` is the null pointer. -/
abbrev Heap := Nat → Option Nat

/-- Writing one observer's `next_` field. -/
def update (nx : Heap) (o : Nat) (v : Option Nat) : Heap :=
  fun n => if n = o then v else nx n

@[simp] theorem update_same (nx : Heap) (o : Nat) (v : Option Nat) :
    update nx o v o = v := by
  simp [update]

theorem update_ne (nx : Heap) {x o : Nat} (v : Option Nat) (h : x ≠ o) :
    update nx o v x = nx x := by
  simp [update, h]

/-- The subject together with the observers' pointer fields:
`head` is `Subject::head_`, `next` collects every `Observer::next_`,
`state` is `Subject::state_`. -/
structure Subject where
  head : Option Nat
  next : Heap
  state : Int

/-- A freshly constructed subject (`Subject() : head_(nullptr), state_(0)`)
among freshly constructed observers (`Observer() : next_(nullptr)`). -/
def initState : Subject :=
  { head := none, next := fun _ => none, state := 0 }

/-- `Subject::addObserver`: `observer->next_ = head_; head_ = observer;`. -/
def addObserver (s : Subject) (o : Nat) : Subject :=
  { s with head := some o, next := update s.next o s.head }

/-- The `while` loop of `Subject::removeObserver`: `current` scans from
the head; on `current->next_ == observer` it splices
(`current->next_ = observer->next_; observer->next_ = nullptr;`) and
returns; reaching `nullptr` ends the loop with the heap unchanged.
Fuel exhaustion (`none`) models a diverging scan. -/
def scanRemove (nx : Heap) (o : Nat) : Nat → Option Nat → Option Heap
  | _, none => some nx
  | 0, some _ => none
  | fuel + 1, some c =>
    if nx c = some o then
      some (update (update nx c (nx o)) o none)
    else
      scanRemove nx o fuel (nx c)

/-- `Subject::removeObserver`: the head check
(`head_ = observer->next_; observer->next_ = nullptr;`) followed by the
predecessor scan. -/
def removeObserver (s : Subject) (o : Nat) (fuel : Nat) : Option Subject :=
  if s.head = some o then
    some { head := s.next o, next := update s.next o none, state := s.state }
  else
    (scanRemove s.next o fuel s.head).map (fun nx => { s with next := nx })

/-- The `while` loop of `Subject::notifyObservers`: walk from the head,
recording each `onNotify(state_)` call as an (observer, value) pair.
Fuel exhaustion (`none`) models a diverging walk. -/
def notifyWalk (nx : Heap) (v : Int) : Nat → Option Nat → Option (List (Nat × Int))
  | _, none => some []
  | 0, some _ => none
  | fuel + 1, some c =>
    (notifyWalk nx v fuel (nx c)).map (fun rest => (c, v) :: rest)

/-- `Subject::notifyObservers`: the walk reads `state_` and the chain but
writes no field of the subject or of any observer (the concrete
`onNotify` bodies only print), so the post-state is the input state;
the second component is the trace of notification calls. -/
def notifyObservers (s : Subject) (fuel : Nat) : Subject × Option (List (Nat × Int)) :=
  (s, notifyWalk s.next s.state fuel s.head)

/-- `Subject::setState`: `state_ = newState; notifyObservers();`. -/
def setState (s : Subject) (v : Int) (fuel : Nat) : Subject × Option (List (Nat × Int)) :=
  notifyObservers { s with state := v } fuel

/-- `Subject::getState`. -/
def getState (s : Subject) : Int :=
  s.state

/-- Registering a list of observers in order, first element first. -/
def addAll (s : Subject) (obs : List Nat) : Subject :=
  obs.foldl addObserver s

/-- Executable chain read-out: the observers reachable from `hd` by
`next_` links, or `none` when the fuel runs out before `nullptr`. -/
def chainList (nx : Heap) : Nat → Option Nat → Option (List Nat)
  | _, none => some []
  | 0, some _ => none
  | fuel + 1, some c =>
    (chainList nx fuel (nx c)).map (fun rest => c :: rest)

/-- `reprChain nx hd l`: starting from pointer `hd`, the `next_` links
spell out exactly the finite list `l` and end at `nullptr`. -/
def reprChain (nx : Heap) : Option Nat → List Nat → Prop
  | hd, [] => hd = none
  | hd, o :: l => hd = some o ∧ reprChain nx (nx o) l

/-- The subject's structural invariant: the chain from `head_` is a
duplicate-free finite list, and every observer outside it has a null
`next_` pointer. -/
def SubjectInv (s : Subject) (l : List Nat) : Prop :=
  reprChain s.next s.head l ∧ l.Nodup ∧ ∀ o, o ∉ l → s.next o = none

/-- States reachable from a fresh subject by `addObserver` on handles
not currently registered and `removeObserver` on arbitrary handles,
indexed by the list of currently registered observers (head first). -/
inductive GoodReach : Subject → List Nat → Prop
  | init : GoodReach initState []
  | add {s : Subject} {l : List Nat} (o : Nat) :
      GoodReach s l → o ∉ l → GoodReach (addObserver s o) (o :: l)
  | remove {s s' : Subject} {l : List Nat} (o : Nat) :
      GoodReach s l → removeObserver s o (l.length + 1) = some s' →
      GoodReach s' (l.erase o)

theorem reprChain_update_of_notMem {nx : Heap} {o : Nat} {v : Option Nat} :
    ∀ {l : List Nat} {hd : Option Nat}, reprChain nx hd l → o ∉ l →
      reprChain (update nx o v) hd l
  | [], _, h, _ => h
  | a :: l, _, h, ho => by
    obtain ⟨rfl, htail⟩ := h
    have hao : a ≠ o := fun hao => ho (hao ▸ List.mem_cons_self a l)
    refine ⟨rfl, ?_⟩
    rw [update_ne nx v hao]
    exact reprChain_update_of_notMem htail (fun hm => ho (List.mem_cons_of_mem a hm))

theorem reprChain_head_mem {nx : Heap} {l : List Nat} {a : Nat}
    (h : reprChain nx (some a) l) : a ∈ l := by
  cases l with
  | nil => exact absurd h (by simp [reprChain])
  | cons b l =>
    obtain ⟨hb, -⟩ := h
    exact (Option.some_inj.mp hb) ▸ List.mem_cons_self b l

theorem reprChain_next_mem {nx : Heap} {o : Nat} :
    ∀ {l : List Nat} {hd : Option Nat}, reprChain nx hd l →
      ∀ c ∈ l, nx c = some o → o ∈ l
  | [], _, _, c, hc, _ => absurd hc (List.not_mem_nil c)
  | a :: l, _, h, c, hc, hnx => by
    obtain ⟨rfl, htail⟩ := h
    rcases List.mem_cons.mp hc with rfl | hc
    · exact List.mem_cons_of_mem c (reprChain_head_mem (hnx ▸ htail))
    · exact List.mem_cons_of_mem a (reprChain_next_mem htail c hc hnx)

theorem scanRemove_not_found {nx : Heap} {o : Nat} :
    ∀ {l : List Nat} {hd : Option Nat} {f : Nat}, reprChain nx hd l →
      o ∉ l → l.length + 1 ≤ f → scanRemove nx o f hd = some nx
  | [], _, fuel, h, _, hf => by
    cases h
    cases fuel with
    | zero => exact absurd hf (by simp)
    | succ f => simp [scanRemove]
  | a :: l, _, fuel, h, ho, hf => by
    obtain ⟨rfl, htail⟩ := h
    cases fuel with
    | zero => exact absurd hf (by simp)
    | succ f =>
      have hne : nx a ≠ some o := by
        intro hx
        exact ho (List.mem_cons_of_mem a (reprChain_head_mem (hx ▸ htail)))
      have : scanRemove nx o (f + 1) (some a) = scanRemove nx o f (nx a) := by
        simp [scanRemove, hne]
      rw [this]
      exact scanRemove_not_found (f := f) htail
        (fun hm => ho (List.mem_cons_of_mem a hm))
        (by simp only [List.length_cons] at hf; omega)

theorem scanRemove_found {nx : Heap} {o : Nat} :
    ∀ {l : List Nat} {hd : Option Nat} {f : Nat}, reprChain nx hd l →
      l.Nodup → o ∈ l → hd ≠ some o → l.length ≤ f →
      ∃ c ∈ l, c ≠ o ∧
        scanRemove nx o f hd = some (update (update nx c (nx o)) o none) ∧
        reprChain (update (update nx c (nx o)) o none) hd (l.erase o)
  | [], _, _, _, _, ho, _, _ => absurd ho (List.not_mem_nil o)
  | a :: l, _, fuel, h, hnd, ho, hhd, hf => by
    obtain ⟨rfl, htail⟩ := h
    have hao : a ≠ o := fun hao => hhd (by rw [hao])
    have holn : o ∈ l := (List.mem_cons.mp ho).resolve_left (fun h => hao h.symm)
    have hanl : a ∉ l := (List.nodup_cons.mp hnd).1
    cases fuel with
    | zero => exact absurd hf (by simp)
    | succ f =>
      by_cases hnxa : nx a = some o
      · -- the predecessor is the head element `a` itself
        refine ⟨a, List.mem_cons_self a l, hao, ?_, ?_⟩
        · simp [scanRemove, hnxa]
        · -- the tail list starts with `o`
          obtain ⟨l', rfl, htail'⟩ : ∃ l', l = o :: l' ∧ reprChain nx (nx o) l' := by
            cases l with
            | nil => exact absurd holn (List.not_mem_nil o)
            | cons b l' =>
              obtain ⟨hb, ht⟩ := hnxa ▸ htail
              obtain rfl := Option.some_inj.mp hb
              exact ⟨l', rfl, ht⟩
          have hol' : o ∉ l' := by
            have := List.nodup_cons.mp (List.nodup_cons.mp hnd).2
            exact this.1
          have hal' : a ∉ l' := fun hm => hanl (List.mem_cons_of_mem o hm)
          rw [List.erase_cons_tail, List.erase_cons_head]
          · refine ⟨rfl, ?_⟩
            have h1 : update (update nx a (nx o)) o none a = nx o := by
              rw [update_ne _ _ hao, update_same]
            rw [h1]
            exact reprChain_update_of_notMem
              (reprChain_update_of_notMem htail' hal') hol'
          · simpa using hao
      · -- recurse past `a`
        have holn' : o ∈ l := holn
        obtain ⟨c, hcl, hco, hscan, hrep⟩ :=
          scanRemove_found (o := o) (f := f) htail (List.nodup_cons.mp hnd).2
            holn hnxa (by simp only [List.length_cons] at hf; omega)
        refine ⟨c, List.mem_cons_of_mem a hcl, hco, ?_, ?_⟩
        · have : scanRemove nx o (f + 1) (some a) = scanRemove nx o f (nx a) := by
            simp [scanRemove, hnxa]
          rw [this]
          exact hscan
        · have hac : a ≠ c := fun h => hanl (h ▸ hcl)
          rw [List.erase_cons_tail]
          · refine ⟨rfl, ?_⟩
            have h1 : update (update nx c (nx o)) o none a = nx a := by
              rw [update_ne _ _ hao, update_ne _ _ hac]
            rw [h1]
            exact hrep
          · simpa using hao

theorem subjectInv_init : SubjectInv initState [] :=
  ⟨rfl, List.nodup_nil, fun _ _ => rfl⟩

theorem subjectInv_add {s : Subject} {l : List Nat} (h : SubjectInv s l)
    {o : Nat} (ho : o ∉ l) : SubjectInv (addObserver s o) (o :: l) := by
  obtain ⟨hrep, hnd, hout⟩ := h
  refine ⟨⟨rfl, ?_⟩, List.nodup_cons.mpr ⟨ho, hnd⟩, ?_⟩
  · show reprChain (update s.next o s.head) (update s.next o s.head o) l
    rw [update_same]
    exact reprChain_update_of_notMem hrep ho
  · intro x hx
    have hxo : x ≠ o := fun h => hx (h ▸ List.mem_cons_self o l)
    have hxl : x ∉ l := fun h => hx (List.mem_cons_of_mem o h)
    show update s.next o s.head x = none
    rw [update_ne _ _ hxo]
    exact hout x hxl

theorem removeObserver_sim {s : Subject} {l : List Nat} (h : SubjectInv s l)
    {o : Nat} {f : Nat} (hf : l.length + 1 ≤ f) :
    ∃ s', removeObserver s o f = some s' ∧ SubjectInv s' (l.erase o) ∧
      s'.state = s.state ∧ s'.next o = none ∧ (o ∉ l → s' = s) := by
  obtain ⟨hrep, hnd, hout⟩ := h
  by_cases hhd : s.head = some o
  · -- head removal branch of the C++ code
    obtain ⟨l', rfl, htail⟩ : ∃ l', l = o :: l' ∧ reprChain s.next (s.next o) l' := by
      cases l with
      | nil => exact absurd hrep (by rw [hhd]; simp [reprChain])
      | cons b l' =>
        obtain ⟨hb, ht⟩ := hrep
        obtain rfl : b = o := by rw [hhd] at hb; exact (Option.some_inj.mp hb).symm
        exact ⟨l', rfl, ht⟩
    have hol' : o ∉ l' := (List.nodup_cons.mp hnd).1
    refine ⟨{ head := s.next o, next := update s.next o none, state := s.state },
      by simp [removeObserver, hhd], ?_, rfl, ?_, ?_⟩
    · rw [List.erase_cons_head]
      refine ⟨?_, (List.nodup_cons.mp hnd).2, ?_⟩
      · exact reprChain_update_of_notMem htail hol'
      · intro x hx
        by_cases hxo : x = o
        · subst hxo
          exact update_same _ _ _
        · show update s.next o none x = none
          rw [update_ne _ _ hxo]
          exact hout x (by simp [hxo, hx])
    · exact update_same _ _ _
    · intro ho
      exact absurd (List.mem_cons_self o l') ho
  · by_cases hol : o ∈ l
    · -- removal of an interior or tail node: the scan finds the predecessor
      obtain ⟨c, hcl, hco, hscan, hrep'⟩ :=
        scanRemove_found hrep hnd hol hhd (Nat.le_of_succ_le hf)
      refine ⟨{ s with next := update (update s.next c (s.next o)) o none },
        by simp [removeObserver, hhd, hscan], ?_, rfl, ?_, fun ho => absurd hol ho⟩
      · refine ⟨hrep', hnd.erase o, ?_⟩
        intro x hx
        by_cases hxo : x = o
        · subst hxo
          exact update_same _ _ _
        · have hxl : x ∉ l := fun hm =>
            hx ((List.mem_erase_of_ne hxo).mpr hm)
          have hxc : x ≠ c := fun h => hxl (h ▸ hcl)
          show update (update s.next c (s.next o)) o none x = none
          rw [update_ne _ _ hxo, update_ne _ _ hxc]
          exact hout x hxl
      · exact update_same _ _ _
    · -- the handle is not registered: the scan reaches nullptr, a no-op
      have hscan := scanRemove_not_found hrep hol hf
      refine ⟨s, ?_, ?_, rfl, hout o hol, fun _ => rfl⟩
      · simp [removeObserver, hhd, hscan]
      · rw [List.erase_of_not_mem hol]
        exact ⟨hrep, hnd, hout⟩

theorem goodReach_inv {s : Subject} {l : List Nat} (h : GoodReach s l) :
    SubjectInv s l := by
  induction h with
  | init => exact subjectInv_init
  | add o _ ho ih => exact subjectInv_add ih ho
  | remove o _ heq ih =>
    obtain ⟨s'', heq', hinv, -, -, -⟩ := removeObserver_sim ih (Nat.le_refl _)
    rw [heq] at heq'
    exact (Option.some_inj.mp heq') ▸ hinv

theorem notifyWalk_repr {nx : Heap} {v : Int} :
    ∀ {l : List Nat} {hd : Option Nat} {f : Nat}, reprChain nx hd l →
      l.length ≤ f → notifyWalk nx v f hd = some (l.map (fun o => (o, v)))
  | [], _, fuel, h, _ => by
    cases h
    cases fuel <;> simp [notifyWalk]
  | a :: l, _, fuel, h, hf => by
    obtain ⟨rfl, htail⟩ := h
    cases fuel with
    | zero => exact absurd hf (by simp)
    | succ f =>
      have := notifyWalk_repr (v := v) (f := f) htail
        (by simp only [List.length_cons] at hf; omega)
      simp [notifyWalk, this]

theorem chainList_repr {nx : Heap} :
    ∀ {l : List Nat} {hd : Option Nat} {f : Nat}, reprChain nx hd l →
      l.length ≤ f → chainList nx f hd = some l
  | [], _, fuel, h, _ => by
    cases h
    cases fuel <;> simp [chainList]
  | a :: l, _, fuel, h, hf => by
    obtain ⟨rfl, htail⟩ := h
    cases fuel with
    | zero => exact absurd hf (by simp)
    | succ f =>
      have := chainList_repr (f := f) htail
        (by simp only [List.length_cons] at hf; omega)
      simp [chainList, this]

theorem notifyWalk_snd {nx : Heap} {v : Int} :
    ∀ {fuel : Nat} {hd : Option Nat} {tr : List (Nat × Int)},
      notifyWalk nx v fuel hd = some tr → ∀ p ∈ tr, p.2 = v := by
  intro fuel
  induction fuel with
  | zero =>
    intro hd tr h p hp
    cases hd with
    | none =>
      simp [notifyWalk] at h
      subst h
      exact absurd hp (List.not_mem_nil p)
    | some c => exact absurd h (by simp [notifyWalk])
  | succ f ih =>
    intro hd tr h p hp
    cases hd with
    | none =>
      simp [notifyWalk] at h
      subst h
      exact absurd hp (List.not_mem_nil p)
    | some c =>
      simp only [notifyWalk, Option.map_eq_some'] at h
      obtain ⟨rest, hrest, rfl⟩ := h
      rcases List.mem_cons.mp hp with rfl | hp'
      · rfl
      · exact ih hrest p hp'

theorem addAll_inv {obs : List Nat} :
    ∀ {s : Subject} {l : List Nat}, SubjectInv s l → obs.Nodup →
      (∀ o ∈ obs, o ∉ l) → SubjectInv (addAll s obs) (obs.reverse ++ l) := by
  induction obs with
  | nil =>
    intro s l h _ _
    simpa [addAll] using h
  | cons a obs ih =>
    intro s l h hnd hdis
    have h1 : SubjectInv (addObserver s a) (a :: l) :=
      subjectInv_add h (hdis a (List.mem_cons_self a obs))
    have h2 : SubjectInv (addAll (addObserver s a) obs) (obs.reverse ++ (a :: l)) :=
      ih h1 (List.nodup_cons.mp hnd).2 (by
        intro o ho
        have hoa : o ≠ a := fun h => ((List.nodup_cons.mp hnd).1 (h ▸ ho))
        have hol : o ∉ l := hdis o (List.mem_cons_of_mem a ho)
        simp [hoa, hol])
    have : addAll s (a :: obs) = addAll (addObserver s a) obs := by
      simp [addAll]
    rw [this]
    have harr : (a :: obs).reverse ++ l = obs.reverse ++ (a :: l) := by
      simp
    rw [harr]
    exact h2

theorem reprChain_no_self_loop {nx : Heap} {o : Nat} (h : nx o = some o) :
    ∀ l : List Nat, ¬ reprChain nx (some o) l
  | [], hl => by simp [reprChain] at hl
  | a :: l, hl => by
    obtain ⟨ha, htail⟩ := hl
    obtain rfl := Option.some_inj.mp ha
    rw [h] at htail
    exact reprChain_no_self_loop h l htail

/-- C1: registering any duplicate-free sequence of observers on a fresh
subject and calling `setState v` notifies them in exactly the reverse
order of registration, each with value `v`. -/
theorem C1_notify_reverse_registration (obs : List Nat) (v : Int)
    (hnd : obs.Nodup) :
    (setState (addAll initState obs) v (obs.length + 1)).2 =
      some (obs.reverse.map (fun o => (o, v))) := by
  have hinv : SubjectInv (addAll initState obs) (obs.reverse ++ []) :=
    addAll_inv subjectInv_init hnd (by simp)
  rw [List.append_nil] at hinv
  have hstep : (setState (addAll initState obs) v (obs.length + 1)).2 =
      notifyWalk (addAll initState obs).next v (obs.length + 1)
        (addAll initState obs).head := rfl
  rw [hstep]
  exact notifyWalk_repr hinv.1 (by simp)

theorem C1_witness :
    ([0, 1, 2] : List Nat).Nodup ∧
    (setState (addAll initState [0, 1, 2]) 5 4).2 =
      some [((2 : Nat), (5 : Int)), (1, 5), (0, 5)] := by
  constructor
  · decide
  · have h := C1_notify_reverse_registration [0, 1, 2] 5 (by decide)
    simpa using h

/-- C2 counterexample: calling `addObserver` twice on the same handle
(allowed by the claim, which admits handles that are already
registered) makes the handle's `next_` point to itself, so the chain
from the head is cyclic and is represented by no finite list at all. -/
theorem C2_counterexample :
    (addObserver (addObserver initState 0) 0).head = some 0 ∧
    (addObserver (addObserver initState 0) 0).next 0 = some 0 ∧
    ¬ ∃ l : List Nat,
      reprChain (addObserver (addObserver initState 0) 0).next
        (addObserver (addObserver initState 0) 0).head l := by
  refine ⟨rfl, rfl, ?_⟩
  rintro ⟨l, hl⟩
  have h0 : (addObserver (addObserver initState 0) 0).next 0 = some 0 := rfl
  exact reprChain_no_self_loop h0 l hl

/-- C2 (amended): for every state reachable by `addObserver` calls on
handles not currently registered and arbitrary `removeObserver` calls,
following `next_` from the head spells out the duplicate-free finite
list of currently registered observers: the chain is acyclic,
duplicate-free and reaches each registered observer exactly once. -/
theorem C2_amended_chain_wellformed (s : Subject) (l : List Nat)
    (h : GoodReach s l) :
    reprChain s.next s.head l ∧ l.Nodup :=
  ⟨(goodReach_inv h).1, (goodReach_inv h).2.1⟩

theorem C2_amended_witness :
    reprChain (addObserver initState 0).next (addObserver initState 0).head [0] ∧
    ([0] : List Nat).Nodup :=
  C2_amended_chain_wellformed _ [0] (GoodReach.add 0 GoodReach.init (by simp))

/-- C3: every notification delivered during a `setState v` pass carries
exactly the value `v` just stored, never a stale or future value. -/
theorem C3_state_visibility (s : Subject) (v : Int) (fuel : Nat)
    (tr : List (Nat × Int)) (h : (setState s v fuel).2 = some tr) :
    ∀ p ∈ tr, p.2 = v := by
  have hstep : (setState s v fuel).2 = notifyWalk s.next v fuel s.head := rfl
  rw [hstep] at h
  exact fun p hp => notifyWalk_snd h p hp

theorem C3_witness :
    (setState (addObserver initState 0) 9 2).2 = some [((0 : Nat), (9 : Int))] ∧
    ((0 : Nat), (9 : Int)).2 = 9 :=
  ⟨rfl, C3_state_visibility (addObserver initState 0) 9 2 [(0, 9)] rfl (0, 9) (by simp)⟩

/-- C4: `removeObserver` on a handle that is not currently registered
returns the subject completely unchanged (a no-op, not an error), and
consequently a second removal of the same handle right after a
successful one changes nothing. -/
theorem C4_remove_unregistered_noop (s : Subject) (l : List Nat) (o fuel : Nat)
    (h : SubjectInv s l) (hf : l.length + 1 ≤ fuel) :
    (o ∉ l → removeObserver s o fuel = some s) ∧
    (∀ s', removeObserver s o fuel = some s' →
      removeObserver s' o fuel = some s') := by
  constructor
  · intro ho
    obtain ⟨s'', heq, -, -, -, hid⟩ := removeObserver_sim h hf
    rw [heq, hid ho]
  · intro s' heq
    obtain ⟨s'', heq', hinv', -, -, -⟩ := removeObserver_sim h hf
    rw [heq] at heq'
    obtain rfl := Option.some_inj.mp heq'
    have hf' : (l.erase o).length + 1 ≤ fuel :=
      le_trans (Nat.succ_le_succ (List.Sublist.length_le (l.erase_sublist o))) hf
    obtain ⟨s₂, heq₂, -, -, -, hid₂⟩ := removeObserver_sim hinv' hf'
    have hno : o ∉ l.erase o := fun hm =>
      ((List.Nodup.mem_erase_iff h.2.1).mp hm).1 rfl
    rw [heq₂, hid₂ hno]

theorem C4_witness :
    removeObserver initState 5 1 = some initState :=
  (C4_remove_unregistered_noop initState [] 5 1 subjectInv_init (by simp)).1
    (by simp)

/-- C5 counterexample: after registering A = 0, B = 1, C = 2 in that
order, the chain head is C's node (insertion is head-first), not A's
node as the claim asserts. -/
theorem C5_counterexample :
    (addAll initState [0, 1, 2]).head = some 2 ∧
    (addAll initState [0, 1, 2]).head ≠ some 0 := by
  constructor
  · rfl
  · intro h
    have h2 : some 2 = some 0 := by
      rw [← h]
      rfl
    exact absurd (Option.some_inj.mp h2) (by decide)

/-- C5 (amended): with distinct observers registered in order A, B, C,
the node of A is the chain tail (insertion is head-first, so the head
is C's node); `removeObserver A` leaves exactly B and C registered,
with the chain reading C then B, and a subsequent notification pass
still notifies C before B. -/
theorem C5_remove_first_registered (A B C : Nat) (v : Int)
    (hAB : A ≠ B) (hAC : A ≠ C) (hBC : B ≠ C) :
    (removeObserver (addAll initState [A, B, C]) A 4).map
      (fun s => (chainList s.next 2 s.head, (setState s v 3).2)) =
      some (some [C, B], some [(C, v), (B, v)]) := by
  have hnd : ([A, B, C] : List Nat).Nodup := by
    simp [hAB, hAC, hBC]
  have hinv : SubjectInv (addAll initState [A, B, C]) ([A, B, C].reverse ++ []) :=
    addAll_inv subjectInv_init hnd (by simp)
  rw [List.append_nil] at hinv
  have hrev : ([A, B, C] : List Nat).reverse = [C, B, A] := by simp
  rw [hrev] at hinv
  obtain ⟨s', heq, hinv', -, -, -⟩ := removeObserver_sim (f := 4) hinv (by simp)
  have her : ([C, B, A] : List Nat).erase A = [C, B] := by
    rw [List.erase_cons_tail (by simpa using hAC.symm),
      List.erase_cons_tail (by simpa using hAB.symm), List.erase_cons_head]
  rw [her] at hinv'
  rw [heq]
  have h1 : chainList s'.next 2 s'.head = some [C, B] :=
    chainList_repr hinv'.1 (by simp)
  have h2 : (setState s' v 3).2 = some ([C, B].map (fun o => (o, v))) :=
    notifyWalk_repr hinv'.1 (by simp)
  simp only [Option.map_some', h1, h2, List.map_cons, List.map_nil]

theorem C5_witness :
    (removeObserver (addAll initState [0, 1, 2]) 0 4).map
      (fun s => (chainList s.next 2 s.head, (setState s 7 3).2)) =
      some (some [2, 1], some [(2, 7), (1, 7)]) :=
  C5_remove_first_registered 0 1 2 7 (by decide) (by decide) (by decide)

/-- C6: in any state reached by adding unregistered handles and
removing arbitrary handles, one notification pass produces exactly the
list of currently registered observers, each visited once (the
registered list is duplicate-free), nobody skipped, nobody repeated. -/
theorem C6_notify_each_exactly_once (s : Subject) (l : List Nat)
    (h : GoodReach s l) :
    (notifyObservers s (l.length + 1)).2 =
      some (l.map (fun o => (o, s.state))) ∧ l.Nodup := by
  obtain ⟨hrep, hnd, -⟩ := goodReach_inv h
  exact ⟨notifyWalk_repr hrep (Nat.le_succ _), hnd⟩

theorem C6_witness :
    (notifyObservers (addObserver (addObserver initState 0) 1) 3).2 =
      some [((1 : Nat), (0 : Int)), (0, 0)] ∧ ([1, 0] : List Nat).Nodup := by
  have h := C6_notify_each_exactly_once _ [1, 0]
    (GoodReach.add 1 (GoodReach.add 0 GoodReach.init (by simp)) (by simp))
  simpa using h

/-- C7: `setState v` on a subject with an empty registry is a no-op
pass: no observer is notified, no error occurs, and the stored state
observable via `getState` is `v`. -/
theorem C7_empty_registry_setState (s : Subject) (v : Int) (fuel : Nat)
    (h : s.head = none) :
    getState (setState s v fuel).1 = v ∧ (setState s v fuel).2 = some [] := by
  constructor
  · rfl
  · have hstep : (setState s v fuel).2 = notifyWalk s.next v fuel s.head := rfl
    rw [hstep, h]
    cases fuel <;> simp [notifyWalk]

theorem C7_witness :
    getState (setState initState 7 5).1 = 7 ∧
    (setState initState 7 5).2 = some [] :=
  C7_empty_registry_setState initState 7 5 rfl

/-- C8: registering exactly one observer on an empty subject and then
removing it leaves the registry empty (`head_` is null), and any
subsequent `setState` notifies nobody. -/
theorem C8_sole_node_removal (s : Subject) (o : Nat) (v : Int) (fuel : Nat)
    (h : s.head = none) :
    (removeObserver (addObserver s o) o 1).map
      (fun s' => (s'.head, (setState s' v fuel).2)) = some (none, some []) := by
  have h2 : (removeObserver (addObserver s o) o 1).map
      (fun s' => (s'.head, (setState s' v fuel).2)) =
      some (s.head,
        notifyWalk (update (update s.next o s.head) o none) v fuel s.head) := by
    simp [removeObserver, addObserver, setState, notifyObservers]
  rw [h2, h]
  cases fuel <;> simp [notifyWalk]

theorem C8_witness :
    (removeObserver (addObserver initState 0) 0 1).map
      (fun s' => (s'.head, (setState s' 7 1).2)) = some (none, some []) :=
  C8_sole_node_removal initState 0 7 1 rfl

/-- C9: every observer that is not currently registered has a null
`next_` pointer: this holds at construction and is restored by
`removeObserver` when it detaches a node, so a removed observer keeps
no stale link into the chain. -/
theorem C9_unregistered_next_null (s : Subject) (l : List Nat)
    (h : GoodReach s l) (o : Nat) (ho : o ∉ l) : s.next o = none :=
  (goodReach_inv h).2.2 o ho

theorem C9_witness :
    (⟨none, update (update (fun _ => none) 0 none) 0 none, 0⟩ : Subject).next 0 =
      none :=
  C9_unregistered_next_null _ []
    (GoodReach.remove 0 (GoodReach.add 0 GoodReach.init (by simp)) rfl) 0
    (by simp)

/-- C10: `addObserver`, `removeObserver` and `notifyObservers` leave
the stored state unchanged as observed through `getState`, while
`setState v` sets it to exactly `v`. -/
theorem C10_state_frame (s : Subject) (o fuel : Nat) (v : Int) (s' : Subject)
    (hrem : removeObserver s o fuel = some s') :
    getState (addObserver s o) = getState s ∧
    getState s' = getState s ∧
    getState (notifyObservers s fuel).1 = getState s ∧
    getState (setState s v fuel).1 = v := by
  refine ⟨rfl, ?_, rfl, rfl⟩
  unfold removeObserver at hrem
  by_cases hhd : s.head = some o
  · rw [if_pos hhd] at hrem
    obtain rfl := Option.some_inj.mp hrem
    rfl
  · rw [if_neg hhd] at hrem
    cases hscan : scanRemove s.next o fuel s.head with
    | none =>
      rw [hscan] at hrem
      exact absurd hrem (by simp)
    | some nx =>
      rw [hscan] at hrem
      simp only [Option.map_some', Option.some_inj] at hrem
      rw [← hrem]
      rfl

theorem C10_witness :
    getState (addObserver (addObserver initState 0) 0) =
      getState (addObserver initState 0) ∧
    getState (⟨none, update (update (fun _ => none) 0 none) 0 none, 0⟩ : Subject) =
      getState (addObserver initState 0) ∧
    getState (notifyObservers (addObserver initState 0) 1).1 =
      getState (addObserver initState 0) ∧
    getState (setState (addObserver initState 0) 9 1).1 = 9 :=
  C10_state_frame (addObserver initState 0) 0 1 9
    ⟨none, update (update (fun _ => none) 0 none) 0 none, 0⟩ rfl

theorem notifyWalk_self_loop {nx : Heap} {o : Nat} (h : nx o = some o) (v : Int) :
    ∀ f : Nat, notifyWalk nx v f (some o) = none
  | 0 => by simp [notifyWalk]
  | f + 1 => by
    have ih := notifyWalk_self_loop h v f
    simp [notifyWalk, h, ih]

/-- C6 counterexample: `addObserver` twice on the same handle is a
sequence of add/remove operations the claim quantifies over, and it
leaves exactly one observer registered (k = 1); but it makes that
handle's `next_` point to itself, so the notification pass cycles on
the self-loop and never completes — the walk returns no trace at any
fuel — hence the single registered observer is not invoked exactly
once by a `notifyObservers` call. -/
theorem C6_counterexample :
    (addObserver (addObserver initState 0) 0).head = some 0 ∧
    (addObserver (addObserver initState 0) 0).next 0 = some 0 ∧
    ∀ f : Nat,
      (notifyObservers (addObserver (addObserver initState 0) 0) f).2 = none := by
  refine ⟨rfl, rfl, ?_⟩
  intro f
  have h0 : (addObserver (addObserver initState 0) 0).next 0 = some 0 := rfl
  exact notifyWalk_self_loop h0 _ f
